import Mathlib

/-
Verification of the .lvm viewer pipeline (src/app.py) against its
natural-language specification.

The Python program is shallowly embedded: the decoded upload is a list of
lines; a pandas DataFrame is a column-oriented table whose cells are either
a rational number, a text value, or a missing value (NaN); pandas column
operations (`pd.to_numeric` with errors="coerce" / errors="ignore",
`dropna`, boolean-mask row filtering, `iloc[::step]`) become explicit list
functions.  Fallible steps return `Except`.
-/

set_option autoImplicit false

namespace LVM

/-- Whitespace characters removed by Python str.strip (ASCII fragment). -/
def isWS (c : Char) : Bool :=
  c = ' ' || c = '\t' || c = '\n' || c = '\r' || c = '\x0b' || c = '\x0c'

/-- Models Python str.strip: remove leading and trailing whitespace. -/
def strip (s : String) : String :=
  String.mk (((s.toList.dropWhile isWS).reverse.dropWhile isWS).reverse)

/-- The header terminator marker looked for by find_data_start_from_bytes. -/
def SENTINEL : String := "***End_of_Header***"

/-- Does this line, stripped, equal the sentinel (app.py line 44)? -/
def sentinelHit (l : String) : Bool := strip l == SENTINEL

/--
Index of the last line whose stripped form equals the sentinel, if any.
This embeds the loop of find_data_start_from_bytes (app.py lines 42-45):
`end_idx` is overwritten on every hit, so the last hit wins.
-/
def lastHeaderIdx : List String → Option Nat
  | [] => none
  | l :: ls =>
    match lastHeaderIdx ls with
    | some i => some (i + 1)
    | none => if sentinelHit l then some 0 else none

/-- Error taxonomy of the load pipeline (spec section 7); the code raises
RuntimeError with these messages. -/
inductive LoadError where
  | malformedInput (msg : String)
  | schemaError (msg : String)
deriving DecidableEq

/-- The message carried by a load error (str(e) in the except handler). -/
def LoadError.message : LoadError → String
  | LoadError.malformedInput m => m
  | LoadError.schemaError m => m

/-- find_data_start_from_bytes (app.py lines 40-48): offset of the first
data row, or a malformed-input error when the sentinel never occurs. -/
def find_data_start (lines : List String) : Except LoadError Nat :=
  match lastHeaderIdx lines with
  | some i => Except.ok (i + 1)
  | none =>
    Except.error
      (LoadError.malformedInput "Couldn\x27t find ***End_of_Header*** in the file.")

/-- One cell of the table: numeric, text, or missing (NaN). -/
inductive Cell where
  | num (q : ℚ)
  | str (s : String)
  | na
deriving DecidableEq

/-- Value of a digit string, most significant first. -/
def digitsToNat (cs : List Char) : Nat :=
  cs.foldl (fun a c => 10 * a + (c.toNat - 48)) 0

/-- Parse an unsigned decimal numeral `digits[.digits]` as a rational:
`ip.fp` denotes (ip * 10^|fp| + fp) / 10^|fp|. -/
def parseUnsigned (cs : List Char) : Option ℚ :=
  match cs.span Char.isDigit with
  | (ip, rest) =>
    match rest with
    | [] => if ip.isEmpty then none else some (mkRat (Int.ofNat (digitsToNat ip)) 1)
    | '.' :: fp =>
      if fp.all Char.isDigit && !(ip.isEmpty && fp.isEmpty) then
        some (mkRat (Int.ofNat (digitsToNat ip * 10 ^ fp.length + digitsToNat fp))
          (10 ^ fp.length))
      else none
    | _ => none

/-- Numeric parsing as performed by pandas on a text field: optional sign,
decimal numeral, surrounding whitespace tolerated. -/
def parseNum (s : String) : Option ℚ :=
  match (strip s).toList with
  | '-' :: cs => (parseUnsigned cs).map (fun q => -q)
  | '+' :: cs => parseUnsigned cs
  | cs => parseUnsigned cs

/-- A column-oriented DataFrame: column name paired with its cells,
in file order.  Row index contiguity is inherent in the list encoding. -/
structure Table where
  cols : List (String × List Cell)
deriving DecidableEq

/-- Split a line at tab characters (sep="\t"). -/
def splitTab (s : String) : List String :=
  (s.toList.splitOn '\t').map String.mk

/--
pandas read_csv column type inference: a column whose every non-empty
field parses as numeric becomes a numeric column (empty fields become
NaN); otherwise the column keeps its fields as text (empty fields NaN).
-/
def inferColumn (raw : List String) : List Cell :=
  if raw.all (fun s => s == "" || (parseNum s).isSome) then
    raw.map (fun s =>
      if s == "" then Cell.na
      else
        match parseNum s with
        | some q => Cell.num q
        | none => Cell.na)
  else
    raw.map (fun s => if s == "" then Cell.na else Cell.str s)

/-- pd.read_csv(..., sep="\t") on the remaining lines: first line is the
header row, later lines are data rows; short rows are padded with missing
fields. -/
def parseTable (ls : List String) : Table :=
  match ls with
  | [] => Table.mk []
  | h :: rows =>
    let names := splitTab h
    let cells := rows.map splitTab
    Table.mk
      (names.enum.map
        (fun p => (p.2, inferColumn (cells.map (fun r => r.getD p.1 "")))))

/-- First column with the given name (pandas label lookup), else []. -/
def colLookup : List (String × List Cell) → String → List Cell
  | [], _ => []
  | p :: ps, name => if p.1 == name then p.2 else colLookup ps name

/-- df[name] : the cells of the first column labelled `name`. -/
def getCol (t : Table) (name : String) : List Cell :=
  colLookup t.cols name

/-- Rebuild every column by a name-aware cell transformation. -/
def mapCellsBy (f : String → List Cell → List Cell) (t : Table) : Table :=
  Table.mk (t.cols.map (fun p => (p.1, f p.1 p.2)))

/-- df.columns = [c.strip() for c in df.columns] (app.py line 56). -/
def stripHeaders (t : Table) : Table :=
  Table.mk (t.cols.map (fun p => (strip p.1, p.2)))

/-- df.dropna(axis=1, how="all") (app.py line 57): drop columns whose
every cell is missing. -/
def dropAllEmptyCols (t : Table) : Table :=
  Table.mk (t.cols.filter (fun p => !(p.2.all (fun c => c == Cell.na))))

/-- pd.to_numeric(value, errors="coerce") on one cell: unparseable text
becomes NaN. -/
def toNumericCoerce : Cell → Cell
  | Cell.num q => Cell.num q
  | Cell.na => Cell.na
  | Cell.str s =>
    match parseNum s with
    | some q => Cell.num q
    | none => Cell.na

/-- Can this cell be converted by pd.to_numeric without error? -/
def cellCoercible : Cell → Bool
  | Cell.num _ => true
  | Cell.na => true
  | Cell.str s => (parseNum s).isSome

/--
pd.to_numeric(column, errors="ignore") (app.py line 69): the conversion is
attempted on the whole column; if ANY cell fails, the input column is
returned unchanged.  This is per-column, not per-value.
-/
def toNumericIgnore (col : List Cell) : List Cell :=
  if col.all cellCoercible then col.map toNumericCoerce else col

/-- df["X_Value"] = pd.to_numeric(df["X_Value"], errors="coerce")
(app.py line 63). -/
def coerceTime (t : Table) : Table :=
  mapCellsBy (fun n cs => if n == "X_Value" then cs.map toNumericCoerce else cs) t

/-- Is the cell present (not NaN)? -/
def cellNotNa : Cell → Bool
  | Cell.na => false
  | _ => true

/-- Keep the cells whose corresponding mask entry is true (pandas boolean
row indexing). -/
def applyMask : List Bool → List Cell → List Cell
  | true :: ms, c :: cs => c :: applyMask ms cs
  | false :: ms, _ :: cs => applyMask ms cs
  | _, _ => []

/-- df.dropna(subset=["X_Value"]).reset_index(drop=True) (app.py line 64):
drop every row whose time cell is missing; the index reset is implicit in
the list encoding. -/
def dropNaRows (t : Table) : Table :=
  mapCellsBy (fun _ cs => applyMask ((getCol t "X_Value").map cellNotNa) cs) t

/-- The loop of app.py lines 67-69: every non-time column goes through
pd.to_numeric(..., errors="ignore"). -/
def coerceSignals (t : Table) : Table :=
  mapCellsBy (fun n cs => if n == "X_Value" then cs else toNumericIgnore cs) t

/-- TEMP_TO_LABEL (app.py lines 15-34), keyed by the raw column name
Temperature_i that load_lvm derives from each index. -/
def renameList : List (String × String) :=
  [("Temperature_0", "NB Dump TC#1"),
   ("Temperature_1", "NB Dump TC#2"),
   ("Temperature_2", "NB Dump TC#3"),
   ("Temperature_3", "NB Dump TC#4"),
   ("Temperature_4", "NB Dump TC#5"),
   ("Temperature_5", "NB Dump TC#6"),
   ("Temperature_6", "NB Dump TC#7"),
   ("Temperature_7", "NB Dump TC#8"),
   ("Temperature_8", "NB Dump TC#9"),
   ("Temperature_9", "NB Dump TC#10"),
   ("Temperature_10", "NB Dump TC#11"),
   ("Temperature_11", "NB Dump TC#12"),
   ("Temperature_12", "NB Scraper Lower TC#1"),
   ("Temperature_13", "NB Scraper Lower TC#2"),
   ("Temperature_14", "NB Scraper Lower TC#3"),
   ("Temperature_15", "NB Scraper Upper TC#4"),
   ("Temperature_16", "NB Scraper Upper TC#5"),
   ("Temperature_17", "NB Scraper Upper TC#6")]

/-- Display label of a raw column name, when mapped. -/
def applyRename (n : String) : String :=
  match renameList.find? (fun p => p.1 == n) with
  | some p => p.2
  | none => n

/-- df.rename(columns=rename_map) (app.py lines 72-77). -/
def renameCols (t : Table) : Table :=
  Table.mk (t.cols.map (fun p => (applyRename p.1, p.2)))

/-- load_lvm (app.py lines 50-79): locate the data start, parse the
tab-separated remainder, clean headers, drop empty columns, require
X_Value, coerce the time column and drop its failed rows, leniently
coerce the signal columns, apply the display-label renaming. -/
def load_lvm (lines : List String) : Except LoadError Table :=
  match find_data_start lines with
  | Except.error e => Except.error e
  | Except.ok start =>
    let t1 := dropAllEmptyCols (stripHeaders
      (parseTable ((lines.drop start).filter (fun l => !(l == "")))))
    if t1.cols.any (fun p => p.1 == "X_Value") then
      Except.ok (renameCols (coerceSignals (dropNaRows (coerceTime t1))))
    else
      Except.error (LoadError.schemaError "X_Value column not found in this LVM.")

/-- The top-level try/except around load_lvm (app.py lines 122-126): a
load failure becomes one user-facing message and the app stops. -/
def loadPipeline (lines : List String) : Sum String Table :=
  match load_lvm lines with
  | Except.ok t => Sum.inr t
  | Except.error e => Sum.inl ("Failed to read LVM: " ++ e.message)

/-- The window membership test of the mask (app.py line 133):
tmin <= X_Value <= tmax; NaN comparisons are false. -/
def cellInWin (a b : ℚ) : Cell → Bool
  | Cell.num q => decide (a ≤ q) && decide (q ≤ b)
  | _ => false

/-- df_win = df.loc[mask] (app.py lines 133-134). -/
def windowFilter (t : Table) (a b : ℚ) : Table :=
  mapCellsBy (fun _ cs => applyMask ((getCol t "X_Value").map (cellInWin a b)) cs) t

/-- df_win.iloc[::n] : every nth row starting at row 0. -/
def everyNth (n : Nat) (cs : List Cell) : List Cell :=
  (cs.enum.filter (fun p => p.1 % n == 0)).map Prod.snd

/-- plot_df = df_win.iloc[::step, :] if (downsample and step > 1) else
df_win (app.py line 167). -/
def plotRows (ds : Bool) (step : Nat) (t : Table) : Table :=
  if ds && decide (1 < step) then mapCellsBy (fun _ cs => everyNth step cs) t else t

/-- ycols_all = [c for c in df.columns if c != "X_Value"] (app.py line 137). -/
def ycolsAll (t : Table) : List String :=
  (t.cols.map Prod.fst).filter (fun c => !(c == "X_Value"))

/-- What the render stage does: stop with an error, or draw some columns. -/
inductive RenderOutcome where
  | emptySelection
  | rendered (cols : List String)
deriving DecidableEq

/-- app.py lines 137-140 and 169: no signal columns at all is an error;
otherwise the chart is built from `sel if sel else ycols_all`. -/
def renderSelection (t : Table) (sel : List String) : RenderOutcome :=
  if (ycolsAll t).isEmpty then RenderOutcome.emptySelection
  else RenderOutcome.rendered (if sel.isEmpty then ycolsAll t else sel)

/-- Sidebar correction (app.py lines 109-111): if tmax < tmin, tmax is
raised to tmin. -/
def sidebarTmax (tmin tmax : ℚ) : ℚ := if tmax < tmin then tmin else tmax

/-- The numeric values of a column (NaN and text ignored, as np.nanmin
and np.nanmax do). -/
def numsOf (cs : List Cell) : List ℚ :=
  cs.filterMap (fun c =>
    match c with
    | Cell.num q => some q
    | _ => none)

/-- Minimum of a list of rationals, none when empty. -/
def listMinQ : List ℚ → Option ℚ
  | [] => none
  | q :: l =>
    match listMinQ l with
    | none => some q
    | some m => some (min q m)

/-- Maximum of a list of rationals, none when empty. -/
def listMaxQ : List ℚ → Option ℚ
  | [] => none
  | q :: l =>
    match listMaxQ l with
    | none => some q
    | some m => some (max q m)

/-- xmin = float(np.nanmin(df["X_Value"])) (app.py line 128). -/
def xminOf (t : Table) : Option ℚ := listMinQ (numsOf (getCol t "X_Value"))

/-- xmax = float(np.nanmax(df["X_Value"])) (app.py line 128). -/
def xmaxOf (t : Table) : Option ℚ := listMaxQ (numsOf (getCol t "X_Value"))

/-- The effective window handed to the mask: the sidebar correction
followed by the clip to data limits (app.py lines 109-111 and 128-131). -/
def effectiveWindowFor (t : Table) (tmin tmax : ℚ) : Option (ℚ × ℚ) :=
  match xminOf t, xmaxOf t with
  | some lo, some hi => some (max tmin lo, min (sidebarTmax tmin tmax) hi)
  | _, _ => none

/-- The two-row scenario file of spec section 8. -/
def sLines : List String :=
  ["LabVIEW Measurement",
   "***End_of_Header***",
   "X_Value\tA",
   "0.0\t5",
   "0.1\tfoo"]

/-- What load_lvm produces on the scenario file. -/
def sTab : Table :=
  Table.mk
    [("X_Value", [Cell.num 0, Cell.num (mkRat 1 10)]),
     ("A", [Cell.str "5", Cell.str "foo"])]

/-- Is the cell a number? -/
def cellIsNum : Cell → Bool
  | Cell.num _ => true
  | _ => false

/-- All columns of the table have the same number of rows (no column was
blanked or ragged by a row operation). -/
def colsEqLen (t : Table) : Prop :=
  ∀ p ∈ t.cols, ∀ p' ∈ t.cols, p.2.length = p'.2.length

/-- A four-sample table (times 0,1,2,3) used to exercise the window
clamping; it is a non-empty Signal Table. -/
def cTab6 : Table :=
  Table.mk [("X_Value", [Cell.num 0, Cell.num 1, Cell.num 2, Cell.num 3])]

/-! Helper lemmas about the embedded operations. -/

theorem applyMask_nil (m : List Bool) : applyMask m [] = [] := by
  cases m with
  | nil => rfl
  | cons b ms => cases b <;> rfl

theorem applyMask_map_filter (p : Cell → Bool) (l : List Cell) :
    applyMask (l.map p) l = l.filter p := by
  induction l with
  | nil => rfl
  | cons c cs ih =>
    simp only [List.map_cons, List.filter_cons]
    cases h : p c <;> simp [applyMask, h, ih]

theorem applyMask_sublist (m : List Bool) (cs : List Cell) :
    List.Sublist (applyMask m cs) cs := by
  induction m generalizing cs with
  | nil => exact List.nil_sublist _
  | cons b ms ih =>
    cases cs with
    | nil =>
      rw [applyMask_nil]
      try exact List.nil_sublist _
    | cons c cs =>
      cases b with
      | true => exact List.Sublist.cons₂ c (ih cs)
      | false => exact List.Sublist.cons c (ih cs)

theorem applyMask_length_congr (m : List Bool) (cs cs' : List Cell)
    (h : cs.length = cs'.length) :
    (applyMask m cs).length = (applyMask m cs').length := by
  induction m generalizing cs cs' with
  | nil => simp [applyMask]
  | cons b ms ih =>
    cases cs with
    | nil =>
      cases cs' with
      | nil => rfl
      | cons c' cs' => simp at h
    | cons c cs =>
      cases cs' with
      | nil => simp at h
      | cons c' cs' =>
        simp only [List.length_cons, Nat.succ.injEq] at h
        cases b with
        | true => simpa [applyMask] using ih cs cs' h
        | false => simpa [applyMask] using ih cs cs' h

theorem applyMask_length_le (m : List Bool) (cs : List Cell) :
    (applyMask m cs).length ≤ (m.filter (fun b => b)).length := by
  induction m generalizing cs with
  | nil => simp [applyMask]
  | cons b ms ih =>
    cases cs with
    | nil => simp [applyMask_nil]
    | cons c cs =>
      cases b with
      | true => simpa [applyMask, List.filter_cons] using ih cs
      | false =>
        simp only [applyMask, List.filter_cons]
        exact le_trans (ih cs) (by simp)

theorem applyMask_all_true (m : List Bool) (cs : List Cell)
    (hm : ∀ b ∈ m, b = true) (hlen : cs.length ≤ m.length) :
    applyMask m cs = cs := by
  induction m generalizing cs with
  | nil =>
    cases cs with
    | nil => rfl
    | cons c cs => simp at hlen
  | cons b ms ih =>
    cases cs with
    | nil => exact applyMask_nil _
    | cons c cs =>
      have hb : b = true := hm b (List.mem_cons_self _ _)
      subst hb
      simp only [List.length_cons, Nat.succ_le_succ_iff] at hlen
      simp only [applyMask]
      rw [ih cs (fun x hx => hm x (List.mem_cons_of_mem _ hx)) hlen]

theorem filter_id_map (p : Cell → Bool) (l : List Cell) :
    (l.map p).filter (fun b => b) = (l.filter p).map p := by
  induction l with
  | nil => rfl
  | cons c cs ih =>
    simp only [List.map_cons, List.filter_cons]
    cases h : p c <;> simp [h, ih]

theorem colLookup_mapCellsBy (f : String → List Cell → List Cell)
    (ps : List (String × List Cell)) (name : String)
    (hf : f name [] = []) :
    colLookup (ps.map (fun p => (p.1, f p.1 p.2))) name = f name (colLookup ps name) := by
  induction ps with
  | nil => simpa [colLookup] using hf.symm
  | cons p ps ih =>
    simp only [List.map_cons, colLookup]
    cases h : (p.1 == name) with
    | true =>
      have : p.1 = name := eq_of_beq h
      simp [this]
    | false => simpa [h] using ih

theorem getCol_mapCellsBy (f : String → List Cell → List Cell) (t : Table)
    (name : String) (hf : f name [] = []) :
    getCol (mapCellsBy f t) name = f name (getCol t name) := by
  cases t with
  | mk cols => exact colLookup_mapCellsBy f cols name hf

theorem listMinQ_mem (l : List ℚ) (m : ℚ) (h : listMinQ l = some m) : m ∈ l := by
  induction l generalizing m with
  | nil => simp [listMinQ] at h
  | cons q l ih =>
    simp only [listMinQ] at h
    cases hl : listMinQ l with
    | none => rw [hl] at h; injection h with h; simp [h.symm]
    | some m' =>
      rw [hl] at h; injection h with h
      rcases min_choice q m' with hc | hc
      · rw [← h, hc]; simp
      · rw [← h, hc]; exact List.mem_cons_of_mem _ (ih m' hl)

theorem listMinQ_eq_none (l : List ℚ) (h : listMinQ l = none) : l = [] := by
  cases l with
  | nil => rfl
  | cons a l =>
    exfalso
    simp only [listMinQ] at h
    cases h' : listMinQ l <;> rw [h'] at h <;> simp at h

theorem listMinQ_le (l : List ℚ) (m : ℚ) (h : listMinQ l = some m) :
    ∀ q ∈ l, m ≤ q := by
  induction l generalizing m with
  | nil => simp
  | cons q l ih =>
    intro x hx
    simp only [listMinQ] at h
    cases hl : listMinQ l with
    | none =>
      rw [hl] at h; injection h with h
      have : l = [] := listMinQ_eq_none l hl
      subst this
      simp at hx
      rw [← h, hx]
    | some m' =>
      rw [hl] at h; injection h with h
      rcases List.mem_cons.mp hx with rfl | hx
      · rw [← h]; exact min_le_left _ _
      · rw [← h]; exact le_trans (min_le_right _ _) (ih m' hl x hx)

theorem listMinQ_isSome_of_mem (l : List ℚ) (q : ℚ) (h : q ∈ l) :
    ∃ m, listMinQ l = some m := by
  cases l with
  | nil => simp at h
  | cons a l =>
    simp only [listMinQ]
    cases listMinQ l with
    | none => exact ⟨a, rfl⟩
    | some m' => exact ⟨min a m', rfl⟩

theorem listMaxQ_mem (l : List ℚ) (m : ℚ) (h : listMaxQ l = some m) : m ∈ l := by
  induction l generalizing m with
  | nil => simp [listMaxQ] at h
  | cons q l ih =>
    simp only [listMaxQ] at h
    cases hl : listMaxQ l with
    | none => rw [hl] at h; injection h with h; simp [h.symm]
    | some m' =>
      rw [hl] at h; injection h with h
      rcases max_choice q m' with hc | hc
      · rw [← h, hc]; simp
      · rw [← h, hc]; exact List.mem_cons_of_mem _ (ih m' hl)

theorem listMaxQ_eq_none (l : List ℚ) (h : listMaxQ l = none) : l = [] := by
  cases l with
  | nil => rfl
  | cons a l =>
    exfalso
    simp only [listMaxQ] at h
    cases h' : listMaxQ l <;> rw [h'] at h <;> simp at h

theorem le_listMaxQ (l : List ℚ) (m : ℚ) (h : listMaxQ l = some m) :
    ∀ q ∈ l, q ≤ m := by
  induction l generalizing m with
  | nil => simp
  | cons q l ih =>
    intro x hx
    simp only [listMaxQ] at h
    cases hl : listMaxQ l with
    | none =>
      rw [hl] at h; injection h with h
      have : l = [] := listMaxQ_eq_none l hl
      subst this
      simp at hx
      rw [← h, hx]
    | some m' =>
      rw [hl] at h; injection h with h
      rcases List.mem_cons.mp hx with rfl | hx
      · rw [← h]; exact le_max_left _ _
      · rw [← h]; exact le_trans (ih m' hl x hx) (le_max_right _ _)

theorem listMaxQ_isSome_of_mem (l : List ℚ) (q : ℚ) (h : q ∈ l) :
    ∃ m, listMaxQ l = some m := by
  cases l with
  | nil => simp at h
  | cons a l =>
    simp only [listMaxQ]
    cases listMaxQ l with
    | none => exact ⟨a, rfl⟩
    | some m' => exact ⟨max a m', rfl⟩

theorem sentinelHit_empty : sentinelHit "" = false := by decide

theorem lastHeaderIdx_none_all (ls : List String) (h : lastHeaderIdx ls = none) :
    ∀ l ∈ ls, sentinelHit l = false := by
  induction ls with
  | nil => simp
  | cons l ls ih =>
    simp only [lastHeaderIdx] at h
    cases h' : lastHeaderIdx ls with
    | some i => rw [h'] at h; simp at h
    | none =>
      rw [h'] at h
      cases hs : sentinelHit l with
      | true => rw [hs] at h; simp at h
      | false =>
        intro x hx
        rcases List.mem_cons.mp hx with rfl | hx
        · exact hs
        · exact ih h' x hx

theorem lastHeaderIdx_eq_none (ls : List String)
    (h : ∀ l ∈ ls, sentinelHit l = false) : lastHeaderIdx ls = none := by
  induction ls with
  | nil => rfl
  | cons l ls ih =>
    have h1 : lastHeaderIdx ls = none :=
      ih (fun x hx => h x (List.mem_cons_of_mem _ hx))
    have h2 : sentinelHit l = false := h l (List.mem_cons_self _ _)
    simp [lastHeaderIdx, h1, h2]

theorem all_false_getD (ls : List String)
    (h : ∀ l ∈ ls, sentinelHit l = false) (k : Nat) :
    sentinelHit (ls.getD k "") = false := by
  induction ls generalizing k with
  | nil => cases k <;> exact sentinelHit_empty
  | cons l ls ih =>
    cases k with
    | zero => exact h l (List.mem_cons_self _ _)
    | succ k => exact ih (fun x hx => h x (List.mem_cons_of_mem _ hx)) k

theorem lastHeaderIdx_some_spec (ls : List String) (j : Nat)
    (h : lastHeaderIdx ls = some j) :
    sentinelHit (ls.getD j "") = true ∧
      ∀ k, j < k → sentinelHit (ls.getD k "") = false := by
  induction ls generalizing j with
  | nil => simp [lastHeaderIdx] at h
  | cons l ls ih =>
    simp only [lastHeaderIdx] at h
    cases h' : lastHeaderIdx ls with
    | some i =>
      rw [h'] at h
      injection h with h
      subst h
      refine ⟨(ih i h').1, ?_⟩
      intro k hk
      cases k with
      | zero => omega
      | succ k => exact (ih i h').2 k (by omega)
    | none =>
      rw [h'] at h
      cases hs : sentinelHit l with
      | false => rw [hs] at h; simp at h
      | true =>
        rw [hs] at h
        injection h with h
        subst h
        refine ⟨hs, ?_⟩
        intro k hk
        cases k with
        | zero => omega
        | succ k =>
          exact all_false_getD ls (lastHeaderIdx_none_all ls h') k

theorem lastHeaderIdx_isSome_of_hit (ls : List String) (i : Nat)
    (h : sentinelHit (ls.getD i "") = true) :
    ∃ j, lastHeaderIdx ls = some j := by
  cases hl : lastHeaderIdx ls with
  | some j => exact ⟨j, rfl⟩
  | none =>
    exfalso
    have hf := all_false_getD ls (lastHeaderIdx_none_all ls hl) i
    rw [h] at hf
    simp at hf

theorem renameList_snd_ne_X :
    renameList.all (fun p => !(p.2 == "X_Value")) = true := by decide

theorem applyRename_X : applyRename "X_Value" = "X_Value" := by decide

theorem applyRename_eq_X (n : String) (h : applyRename n = "X_Value") :
    n = "X_Value" := by
  unfold applyRename at h
  cases hf : renameList.find? (fun p => p.1 == n) with
  | none => rw [hf] at h; exact h
  | some p =>
    rw [hf] at h
    exfalso
    have h2 : p.2 = "X_Value" := h
    have hp : p ∈ renameList := List.mem_of_find?_eq_some hf
    have hne := (List.all_eq_true.mp renameList_snd_ne_X) p hp
    rw [h2] at hne
    simp at hne

theorem colLookup_rename_X (ps : List (String × List Cell)) :
    colLookup (ps.map (fun p => (applyRename p.1, p.2))) "X_Value" =
      colLookup ps "X_Value" := by
  induction ps with
  | nil => rfl
  | cons p ps ih =>
    simp only [List.map_cons, colLookup]
    cases hx : (p.1 == "X_Value") with
    | true =>
      have h1 : p.1 = "X_Value" := eq_of_beq hx
      simp [h1, applyRename_X]
    | false =>
      have hne : (applyRename p.1 == "X_Value") = false := by
        cases hc : (applyRename p.1 == "X_Value") with
        | false => rfl
        | true =>
          exfalso
          have h2 := applyRename_eq_X p.1 (eq_of_beq hc)
          rw [h2] at hx
          simp at hx
      simp [hx, hne, ih]

theorem getCol_rename_X (t : Table) :
    getCol (renameCols t) "X_Value" = getCol t "X_Value" := by
  cases t with
  | mk cols => exact colLookup_rename_X cols

theorem toNumericCoerce_num_or_na (c : Cell) :
    toNumericCoerce c = Cell.na ∨ ∃ q, toNumericCoerce c = Cell.num q := by
  cases c with
  | num q => exact Or.inr ⟨q, rfl⟩
  | na => exact Or.inl rfl
  | str s =>
    simp only [toNumericCoerce]
    cases parseNum s with
    | none => exact Or.inl rfl
    | some q => exact Or.inr ⟨q, rfl⟩

theorem toNumericIgnore_length (col : List Cell) :
    (toNumericIgnore col).length = col.length := by
  unfold toNumericIgnore
  cases h : col.all cellCoercible <;> simp [h]

theorem inferColumn_length (raw : List String) :
    (inferColumn raw).length = raw.length := by
  unfold inferColumn
  cases h : raw.all (fun s => s == "" || (parseNum s).isSome) <;> simp [h]

theorem parseTable_eqLen (ls : List String) : colsEqLen (parseTable ls) := by
  cases ls with
  | nil => intro p hp; simp [parseTable] at hp
  | cons h rows =>
    intro p hp p' hp'
    simp only [parseTable] at hp hp'
    rcases List.mem_map.mp hp with ⟨a, _, rfl⟩
    rcases List.mem_map.mp hp' with ⟨a', _, rfl⟩
    simp [inferColumn_length]

theorem stripHeaders_eqLen (t : Table) (h : colsEqLen t) :
    colsEqLen (stripHeaders t) := by
  intro p hp p' hp'
  simp only [stripHeaders] at hp hp'
  rcases List.mem_map.mp hp with ⟨a, ha, rfl⟩
  rcases List.mem_map.mp hp' with ⟨a', ha', rfl⟩
  exact h a ha a' ha'

theorem renameCols_eqLen (t : Table) (h : colsEqLen t) :
    colsEqLen (renameCols t) := by
  intro p hp p' hp'
  simp only [renameCols] at hp hp'
  rcases List.mem_map.mp hp with ⟨a, ha, rfl⟩
  rcases List.mem_map.mp hp' with ⟨a', ha', rfl⟩
  exact h a ha a' ha'

theorem dropAllEmptyCols_eqLen (t : Table) (h : colsEqLen t) :
    colsEqLen (dropAllEmptyCols t) := by
  intro p hp p' hp'
  simp only [dropAllEmptyCols] at hp hp'
  exact h p (List.mem_of_mem_filter hp) p' (List.mem_of_mem_filter hp')

theorem mapCellsBy_eqLen (f : String → List Cell → List Cell)
    (hf : ∀ n n' cs cs', cs.length = cs'.length → (f n cs).length = (f n' cs').length)
    (t : Table) (h : colsEqLen t) : colsEqLen (mapCellsBy f t) := by
  intro p hp p' hp'
  simp only [mapCellsBy] at hp hp'
  rcases List.mem_map.mp hp with ⟨a, ha, rfl⟩
  rcases List.mem_map.mp hp' with ⟨a', ha', rfl⟩
  exact hf a.1 a'.1 a.2 a'.2 (h a ha a' ha')

theorem mapCellsBy_mapCellsBy (f g : String → List Cell → List Cell) (t : Table) :
    mapCellsBy g (mapCellsBy f t) = mapCellsBy (fun n cs => g n (f n cs)) t := by
  cases t with
  | mk cols =>
    simp only [mapCellsBy, List.map_map]
    rfl

theorem mapCellsBy_congr (f g : String → List Cell → List Cell)
    (h : ∀ n cs, f n cs = g n cs) (t : Table) :
    mapCellsBy f t = mapCellsBy g t := by
  cases t with
  | mk cols =>
    simp only [mapCellsBy, Table.mk.injEq]
    exact List.map_congr_left (fun a _ => by rw [h])

theorem everyNth_one (cs : List Cell) : everyNth 1 cs = cs := by
  unfold everyNth
  rw [List.filter_eq_self.mpr]
  · exact List.enum_map_snd cs
  · intro a _
    simp [Nat.mod_one]

theorem everyNth_sublist (n : Nat) (cs : List Cell) :
    List.Sublist (everyNth n cs) cs := by
  unfold everyNth
  have h1 : List.Sublist (cs.enum.filter (fun p => p.1 % n == 0)) cs.enum :=
    List.filter_sublist _
  have h2 := List.Sublist.map Prod.snd h1
  rwa [List.enum_map_snd] at h2

theorem getCol_coerceTime_X (t : Table) :
    getCol (coerceTime t) "X_Value" = (getCol t "X_Value").map toNumericCoerce := by
  unfold coerceTime
  rw [getCol_mapCellsBy]
  · simp
  · simp

theorem getCol_coerceSignals_X (t : Table) :
    getCol (coerceSignals t) "X_Value" = getCol t "X_Value" := by
  unfold coerceSignals
  rw [getCol_mapCellsBy]
  · simp
  · simp

theorem getCol_dropNaRows (t : Table) (name : String) :
    getCol (dropNaRows t) name =
      applyMask ((getCol t "X_Value").map cellNotNa) (getCol t name) := by
  unfold dropNaRows
  rw [getCol_mapCellsBy]
  exact applyMask_nil _

theorem getCol_windowFilter (t : Table) (a b : ℚ) (name : String) :
    getCol (windowFilter t a b) name =
      applyMask ((getCol t "X_Value").map (cellInWin a b)) (getCol t name) := by
  unfold windowFilter
  rw [getCol_mapCellsBy]
  exact applyMask_nil _

theorem mem_numsOf (cs : List Cell) (q : ℚ) (h : Cell.num q ∈ cs) :
    q ∈ numsOf cs := by
  unfold numsOf
  exact List.mem_filterMap.mpr ⟨Cell.num q, h, rfl⟩

theorem ycolsAll_ne_X (t : Table) (c : String) (h : c ∈ ycolsAll t) :
    c ≠ "X_Value" := by
  unfold ycolsAll at h
  have h2 := (List.mem_filter.mp h).2
  intro hc
  rw [hc] at h2
  simp at h2

/-! The claims. -/

/--
C2 (confirmed): for every input whose decoded text contains at least one
line that, after trimming, equals ***End_of_Header***, find_data_start
returns (index of the last such line) + 1 as the data-start offset; with
exactly one occurrence that line is the last one, so the offset is its
index + 1.
-/
theorem c2_data_start_after_last_sentinel (lines : List String) (i : Nat)
    (h : sentinelHit (lines.getD i "") = true) :
    ∃ j, find_data_start lines = Except.ok (j + 1) ∧
      sentinelHit (lines.getD j "") = true ∧
      ∀ k, j < k → sentinelHit (lines.getD k "") = false := by
  rcases lastHeaderIdx_isSome_of_hit lines i h with ⟨j, hj⟩
  exact ⟨j, by simp [find_data_start, hj], (lastHeaderIdx_some_spec lines j hj).1,
    (lastHeaderIdx_some_spec lines j hj).2⟩

/-- C2 witness: the scenario file hits the sentinel at line 1, and the
offset 2 = 1 + 1 is reported. -/
theorem c2_witness :
    sentinelHit (sLines.getD 1 "") = true ∧
      ∃ j, find_data_start sLines = Except.ok (j + 1) ∧
        sentinelHit (sLines.getD j "") = true ∧
        ∀ k, j < k → sentinelHit (sLines.getD k "") = false :=
  ⟨by decide, c2_data_start_after_last_sentinel sLines 1 (by decide)⟩

/--
C3 (confirmed): when no line of the decoded text trims to the sentinel,
load_lvm fails with the malformed-input error whose message names the
sentinel (it never reaches the tabular parsing stage), and the top-level
handler surfaces it as the single user-facing message
"Failed to read LVM: ...", not a crash.
-/
theorem c3_missing_sentinel_fails (lines : List String)
    (h : ∀ l ∈ lines, sentinelHit l = false) :
    load_lvm lines =
      Except.error (LoadError.malformedInput
        "Couldn\x27t find ***End_of_Header*** in the file.") ∧
      loadPipeline lines =
        Sum.inl "Failed to read LVM: Couldn\x27t find ***End_of_Header*** in the file." := by
  have h1 : find_data_start lines =
      Except.error (LoadError.malformedInput
        "Couldn\x27t find ***End_of_Header*** in the file.") := by
    simp [find_data_start, lastHeaderIdx_eq_none lines h]
  have h2 : load_lvm lines =
      Except.error (LoadError.malformedInput
        "Couldn\x27t find ***End_of_Header*** in the file.") := by
    unfold load_lvm
    rw [h1]
  refine ⟨h2, ?_⟩
  unfold loadPipeline
  rw [h2]
  rfl

/-- C3 witness: a two-line file with no sentinel. -/
theorem c3_witness :
    (∀ l ∈ (["time 0", "v 1"] : List String), sentinelHit l = false) ∧
      load_lvm ["time 0", "v 1"] =
        Except.error (LoadError.malformedInput
          "Couldn\x27t find ***End_of_Header*** in the file.") ∧
      loadPipeline ["time 0", "v 1"] =
        Sum.inl "Failed to read LVM: Couldn\x27t find ***End_of_Header*** in the file." :=
  ⟨by decide, c3_missing_sentinel_fails ["time 0", "v 1"] (by decide)⟩

/--
C4 (confirmed): after a successful load, every time-column cell is
numeric (no NaN survives: rows whose X_Value failed coercion were removed
rather than blanked, so all columns have equal length, and the list
encoding makes the row index contiguous from zero), and every surviving
time value lies within the observed [min, max] of the time column.
-/
theorem c4_time_rows_dropped (lines : List String) (t : Table)
    (h : load_lvm lines = Except.ok t) :
    (getCol t "X_Value").all cellIsNum = true ∧
      colsEqLen t ∧
      ∀ q : ℚ, Cell.num q ∈ getCol t "X_Value" →
        ∃ lo hi, xminOf t = some lo ∧ xmaxOf t = some hi ∧ lo ≤ q ∧ q ≤ hi := by
  unfold load_lvm at h
  cases hfd : find_data_start lines with
  | error e => rw [hfd] at h; simp at h
  | ok start =>
    rw [hfd] at h
    have h' : (if (dropAllEmptyCols (stripHeaders (parseTable
          ((lines.drop start).filter (fun l => !(l == "")))))).cols.any
          (fun p => p.1 == "X_Value") = true then
        Except.ok (renameCols (coerceSignals (dropNaRows (coerceTime
          (dropAllEmptyCols (stripHeaders (parseTable
            ((lines.drop start).filter (fun l => !(l == ""))))))))))
      else
        Except.error (LoadError.schemaError "X_Value column not found in this LVM."))
        = Except.ok t := h
    clear h
    split at h'
    swap
    · simp at h'
    · injection h' with h
      subst h
      set t1 := dropAllEmptyCols (stripHeaders
        (parseTable ((lines.drop start).filter (fun l => !(l == ""))))) with ht1
      have hx : getCol (renameCols (coerceSignals (dropNaRows (coerceTime t1)))) "X_Value"
          = ((getCol t1 "X_Value").map toNumericCoerce).filter cellNotNa := by
        rw [getCol_rename_X, getCol_coerceSignals_X, getCol_dropNaRows,
          getCol_coerceTime_X, applyMask_map_filter]
      refine ⟨?_, ?_, ?_⟩
      · rw [hx, List.all_eq_true]
        intro c hc
        obtain ⟨hmem, hnn⟩ := List.mem_filter.mp hc
        rcases List.mem_map.mp hmem with ⟨c0, _, rfl⟩
        rcases toNumericCoerce_num_or_na c0 with hna | ⟨q, hq⟩
        · rw [hna] at hnn
          exact absurd hnn (by simp [cellNotNa])
        · rw [hq]
          rfl
      · have e1 : colsEqLen t1 :=
          dropAllEmptyCols_eqLen _ (stripHeaders_eqLen _ (parseTable_eqLen _))
        have e2 : colsEqLen (coerceTime t1) := by
          unfold coerceTime
          refine mapCellsBy_eqLen _ ?_ _ e1
          intro n n' cs cs' hlen
          cases (n == "X_Value") <;> cases (n' == "X_Value") <;> simp [hlen]
        have e3 : colsEqLen (dropNaRows (coerceTime t1)) := by
          unfold dropNaRows
          refine mapCellsBy_eqLen _ ?_ _ e2
          intro n n' cs cs' hlen
          exact applyMask_length_congr _ _ _ hlen
        have e4 : colsEqLen (coerceSignals (dropNaRows (coerceTime t1))) := by
          unfold coerceSignals
          refine mapCellsBy_eqLen _ ?_ _ e3
          intro n n' cs cs' hlen
          cases (n == "X_Value") <;> cases (n' == "X_Value") <;>
            simp [toNumericIgnore_length, hlen]
        exact renameCols_eqLen _ e4
      · intro q hq
        have hq1 : q ∈ numsOf (getCol (renameCols (coerceSignals (dropNaRows
            (coerceTime t1)))) "X_Value") := mem_numsOf _ _ hq
        rcases listMinQ_isSome_of_mem _ _ hq1 with ⟨lo, hlo⟩
        rcases listMaxQ_isSome_of_mem _ _ hq1 with ⟨hi, hhi⟩
        exact ⟨lo, hi, hlo, hhi, listMinQ_le _ _ hlo q hq1, le_listMaxQ _ _ hhi q hq1⟩

/-- C4 witness: the scenario file loads and its time column satisfies the
contract. -/
theorem c4_witness :
    load_lvm sLines = Except.ok sTab ∧
      ((getCol sTab "X_Value").all cellIsNum = true ∧
        colsEqLen sTab ∧
        ∀ q : ℚ, Cell.num q ∈ getCol sTab "X_Value" →
          ∃ lo hi, xminOf sTab = some lo ∧ xmaxOf sTab = some hi ∧ lo ≤ q ∧ q ≤ hi) :=
  ⟨by rfl, c4_time_rows_dropped sLines sTab (by rfl)⟩

/--
C5 (confirmed): the window filter keeps exactly the rows whose time value
lies in the inclusive range [tmin, tmax] (each column is masked by that
row predicate on the time column), a time value equal to tmin or tmax is
included whenever the window is non-degenerate (the membership test at the
endpoints evaluates to whether tmin ≤ tmax), and on the scenario table the
window (0.05, 0.15) keeps exactly the one row with X_Value = 0.1.
-/
theorem c5_window_inclusive (t : Table) (a b : ℚ) :
    getCol (windowFilter t a b) "X_Value" =
        (getCol t "X_Value").filter (cellInWin a b) ∧
      (∀ name, getCol (windowFilter t a b) name =
        applyMask ((getCol t "X_Value").map (cellInWin a b)) (getCol t name)) ∧
      cellInWin a b (Cell.num a) = decide (a ≤ b) ∧
      cellInWin a b (Cell.num b) = decide (a ≤ b) ∧
      windowFilter sTab (mkRat 1 20) (mkRat 3 20) =
        Table.mk [("X_Value", [Cell.num (mkRat 1 10)]), ("A", [Cell.str "foo"])] := by
  refine ⟨?_, ?_, ?_, ?_, by decide⟩
  · rw [getCol_windowFilter, applyMask_map_filter]
  · intro name
    exact getCol_windowFilter t a b name
  · show (decide (a ≤ a) && decide (a ≤ b)) = decide (a ≤ b)
    rw [decide_eq_true (le_refl a), Bool.true_and]
  · show (decide (a ≤ b) && decide (b ≤ b)) = decide (a ≤ b)
    rw [decide_eq_true (le_refl b), Bool.and_true]

/--
C6 (corrected): the claim that the effective window always satisfies
tmin ≤ tmax is false: with the non-empty table cTab6 (times 0..3) and the
user pair (5, 10), the sidebar correction leaves (5, 10) unchanged and the
clip to data limits produces (5, 3) with 5 > 3.
-/
theorem c6_counterexample :
    getCol cTab6 "X_Value" ≠ [] ∧
      effectiveWindowFor cTab6 5 10 = some (5, 3) ∧
      ¬ ((5 : ℚ) ≤ 3) :=
  ⟨by decide, by decide, by decide⟩

/--
C6 (amended): after the sidebar correction and the clip to the data's
observed [min, max], the effective window satisfies tmin ≤ tmax whenever
the corrected user window overlaps the data range (tmin ≤ data max and
data min ≤ corrected tmax); when the requested window lies outside the
data range the clipped bounds can invert.
-/
theorem c6_amended (t : Table) (tmin tmax lo hi : ℚ)
    (hlo : xminOf t = some lo) (hhi : xmaxOf t = some hi)
    (h1 : tmin ≤ hi) (h2 : lo ≤ sidebarTmax tmin tmax) :
    ∃ a b, effectiveWindowFor t tmin tmax = some (a, b) ∧ a ≤ b := by
  have hlohi : lo ≤ hi := by
    have hmem : lo ∈ numsOf (getCol t "X_Value") := listMinQ_mem _ _ hlo
    exact le_listMaxQ _ _ hhi lo hmem
  have htm : tmin ≤ sidebarTmax tmin tmax := by
    unfold sidebarTmax
    by_cases hc : tmax < tmin
    · rw [if_pos hc]
    · rw [if_neg hc]
      exact le_of_not_lt hc
  refine ⟨max tmin lo, min (sidebarTmax tmin tmax) hi, ?_, ?_⟩
  · unfold effectiveWindowFor
    rw [hlo, hhi]
  · exact max_le (le_min htm h1) (le_min h2 hlohi)

/-- C6 amended witness: the user window (1, 10) overlaps cTab6's data
range [0, 3], and the effective window comes out ordered. -/
theorem c6_amended_witness :
    xminOf cTab6 = some 0 ∧ xmaxOf cTab6 = some 3 ∧
      (1 : ℚ) ≤ 3 ∧ (0 : ℚ) ≤ sidebarTmax 1 10 ∧
      ∃ a b, effectiveWindowFor cTab6 1 10 = some (a, b) ∧ a ≤ b :=
  ⟨by decide, by decide, by decide, by decide,
    c6_amended cTab6 1 10 0 3 (by decide) (by decide) (by decide) (by decide)⟩

/--
C7 (confirmed): with the downsample flag on and stride n ≥ 1, every
column of the plotted view is every nth row of the windowed view starting
at row 0 in order; stride 1 or a disabled flag is the identity on row
content and order, and the windowed table itself (the data used for
export) is returned unchanged in those cases.
-/
theorem c7_downsample (t : Table) (n : Nat) (h : 1 ≤ n) :
    (∀ name, getCol (plotRows true n t) name = everyNth n (getCol t name)) ∧
      (∀ ds : Bool, plotRows ds 1 t = t) ∧
      plotRows false n t = t := by
  refine ⟨?_, ?_, ?_⟩
  · intro name
    by_cases hn : 1 < n
    · unfold plotRows
      rw [if_pos (by simp [hn])]
      rw [getCol_mapCellsBy _ _ _ rfl]
    · have hn1 : n = 1 := by omega
      subst hn1
      unfold plotRows
      rw [if_neg (by simp), everyNth_one]
  · intro ds
    cases ds
    · unfold plotRows
      rw [if_neg (by simp)]
    · unfold plotRows
      rw [if_neg (by simp)]
  · unfold plotRows
    rw [if_neg (by simp)]

/-- C7 witness: stride 2 on the scenario table. -/
theorem c7_witness :
    1 ≤ 2 ∧
      ((∀ name, getCol (plotRows true 2 sTab) name = everyNth 2 (getCol sTab name)) ∧
        (∀ ds : Bool, plotRows ds 1 sTab = sTab) ∧
        plotRows false 2 sTab = sTab) :=
  ⟨by decide, c7_downsample sTab 2 (by decide)⟩

/--
C8 (corrected): the claim that an empty chosen selection yields an
EmptySelection condition is false: on the scenario table, which has the
signal column A, an empty selection still renders (the code falls back to
all signal columns).
-/
theorem c8_counterexample :
    ycolsAll sTab ≠ [] ∧
      renderSelection sTab [] = RenderOutcome.rendered ["A"] ∧
      renderSelection sTab [] ≠ RenderOutcome.emptySelection :=
  ⟨by decide, by decide, by decide⟩

/--
C8 (amended): when the table has no signal columns besides the time
column, the program reports EmptySelection instead of rendering; when
signal columns exist, rendering always happens on a non-empty set of
signal columns excluding the time column — the chosen selection if
non-empty, otherwise all signal columns as a fallback.
-/
theorem c8_amended (t : Table) (sel : List String)
    (hsel : ∀ c ∈ sel, c ∈ ycolsAll t) :
    (ycolsAll t = [] → renderSelection t sel = RenderOutcome.emptySelection) ∧
      (ycolsAll t ≠ [] →
        ∃ cols, renderSelection t sel = RenderOutcome.rendered cols ∧
          cols ≠ [] ∧ ∀ c ∈ cols, c ∈ ycolsAll t ∧ c ≠ "X_Value") := by
  constructor
  · intro he
    unfold renderSelection
    rw [if_pos (by simp [he])]
  · intro hne
    unfold renderSelection
    rw [if_neg (by simpa [List.isEmpty_iff] using hne)]
    refine ⟨if sel.isEmpty then ycolsAll t else sel, rfl, ?_, ?_⟩
    · by_cases hs : sel.isEmpty = true
      · rw [if_pos hs]
        exact hne
      · rw [if_neg hs]
        intro hnil
        rw [hnil] at hs
        exact hs rfl
    · intro c hc
      by_cases hs : sel.isEmpty = true
      · rw [if_pos hs] at hc
        exact ⟨hc, ycolsAll_ne_X t c hc⟩
      · rw [if_neg hs] at hc
        exact ⟨hsel c hc, ycolsAll_ne_X t c (hsel c hc)⟩

/-- C8 amended witness: selecting ["A"] on the scenario table renders
exactly ["A"]. -/
theorem c8_amended_witness :
    (∀ c ∈ (["A"] : List String), c ∈ ycolsAll sTab) ∧
      ((ycolsAll sTab = [] → renderSelection sTab ["A"] = RenderOutcome.emptySelection) ∧
        (ycolsAll sTab ≠ [] →
          ∃ cols, renderSelection sTab ["A"] = RenderOutcome.rendered cols ∧
            cols ≠ [] ∧ ∀ c ∈ cols, c ∈ ycolsAll sTab ∧ c ≠ "X_Value")) :=
  ⟨by decide, c8_amended sTab ["A"] (by decide)⟩

/--
C9 (confirmed): filtering an already-windowed view again with the same
(tmin, tmax) is the identity: the window filter is idempotent.
-/
theorem c9_window_idempotent (t : Table) (a b : ℚ) :
    windowFilter (windowFilter t a b) a b = windowFilter t a b := by
  have hX : getCol (windowFilter t a b) "X_Value" =
      (getCol t "X_Value").filter (cellInWin a b) := by
    rw [getCol_windowFilter, applyMask_map_filter]
  have step1 : windowFilter (windowFilter t a b) a b =
      mapCellsBy (fun _ cs =>
        applyMask (((getCol t "X_Value").filter (cellInWin a b)).map (cellInWin a b)) cs)
        (windowFilter t a b) := by
    show mapCellsBy (fun _ cs =>
        applyMask ((getCol (windowFilter t a b) "X_Value").map (cellInWin a b)) cs)
        (windowFilter t a b) = _
    rw [hX]
  rw [step1]
  have step2 : windowFilter t a b =
      mapCellsBy (fun _ cs =>
        applyMask ((getCol t "X_Value").map (cellInWin a b)) cs) t := rfl
  rw [step2, mapCellsBy_mapCellsBy]
  apply mapCellsBy_congr
  intro n cs
  apply applyMask_all_true
  · intro x hx
    rcases List.mem_map.mp hx with ⟨c, hc, rfl⟩
    exact (List.mem_filter.mp hc).2
  · calc (applyMask ((getCol t "X_Value").map (cellInWin a b)) cs).length
        ≤ (((getCol t "X_Value").map (cellInWin a b)).filter (fun x => x)).length :=
          applyMask_length_le _ _
      _ = (((getCol t "X_Value").filter (cellInWin a b)).map (cellInWin a b)).length := by
          rw [filter_id_map]

/--
C10 (confirmed): each pipeline stage (the loader's time-column row drop,
the window filter, and downsampling) emits the surviving rows of every
column as a subsequence of its input — relative order as in the input
file is preserved.
-/
theorem c10_stages_preserve_order (t : Table) (a b : ℚ) (n : Nat) (name : String) :
    List.Sublist (getCol (dropNaRows t) name) (getCol t name) ∧
      List.Sublist (getCol (windowFilter t a b) name) (getCol t name) ∧
      List.Sublist (getCol (plotRows true n t) name) (getCol t name) := by
  refine ⟨?_, ?_, ?_⟩
  · rw [getCol_dropNaRows]
    exact applyMask_sublist _ _
  · rw [getCol_windowFilter]
    exact applyMask_sublist _ _
  · unfold plotRows
    by_cases hn : (true && decide (1 < n)) = true
    · rw [if_pos hn, getCol_mapCellsBy _ _ _ rfl]
      exact everyNth_sublist _ _
    · rw [if_neg hn]

/--
C1 (corrected): the claim that signal-column coercion is per value, with
column A ending as mixed [5, "foo"], is false: pd.to_numeric with
errors="ignore" leaves the whole column as text when any value fails, so
column A of the loaded scenario table is ["5", "foo"], both text.
-/
theorem c1_counterexample :
    load_lvm sLines = Except.ok sTab ∧
      getCol sTab "A" = [Cell.str "5", Cell.str "foo"] ∧
      getCol sTab "A" ≠ [Cell.num 5, Cell.str "foo"] :=
  ⟨by rfl, by decide, by decide⟩

/--
C1 (amended): numeric coercion of a signal column is attempted per
column, not per value: a column is converted only when every cell is
coercible, and otherwise kept entirely as its original values, so the
coercion step never produces a mixed numeric/text column; on the scenario
file both rows are retained, column A keeps the text values ["5", "foo"],
and one signal column is available for plotting.
-/
theorem c1_per_column_coercion :
    (∀ col : List Cell,
        (col.all cellCoercible = true ∧ toNumericIgnore col = col.map toNumericCoerce) ∨
          (col.all cellCoercible = false ∧ toNumericIgnore col = col)) ∧
      load_lvm sLines = Except.ok sTab ∧
      getCol sTab "A" = [Cell.str "5", Cell.str "foo"] ∧
      (getCol sTab "X_Value").length = 2 ∧
      ycolsAll sTab = ["A"] := by
  refine ⟨?_, by rfl, by decide, by decide, by decide⟩
  intro col
  cases h : col.all cellCoercible with
  | true =>
    refine Or.inl ⟨rfl, ?_⟩
    unfold toNumericIgnore
    rw [h]
    simp
  | false =>
    refine Or.inr ⟨rfl, ?_⟩
    unfold toNumericIgnore
    rw [h]
    simp

end LVM
